import Mathlib

/-!
Verification development for the Masonry Reactions synchronization engine of
the hexo-theme-Redefine-X repository.

The build-time reconciler lives in `scripts/masonry-reactions.js` and the
runtime Reaction Client in `source/js/plugins/masonry-reactions.source.js`.
Both are shallowly embedded below: pure string helpers become Lean functions
on `String`/`List Char`, the network-facing reconciliation and click handlers
become pure functions from their inputs (including the responses the remote
side would return) to the list of mutations/effects they issue.

JavaScript regular expressions used by the sources
(`/`+"`"+`masonry-image:(.+?)`+"`"+`/`, `/<!-- masonry-image-id: (.+?) -->/`,
`/<code[^>]*>masonry-image:(.+?)<\/code>/`) are embedded operationally:
leftmost starting position first, and for the lazy quantifier the shortest
nonempty run of non-line-terminator characters followed by the closing
delimiter.
-/

namespace MasonryReactions

/-- The backtick character (code point 96), written via `Char.ofNat`. -/
def backtickChar : Char := Char.ofNat 96

/-- Line terminators, the characters a dot in a JavaScript regex does not match. -/
def isNL (c : Char) : Bool :=
  c == '\n' || c == '\r' || c == Char.ofNat 0x2028 || c == Char.ofNat 0x2029

/-- Whitespace removed by JavaScript `String.prototype.trim` (common subset:
space, tab, LF, CR, VT, FF, NBSP). -/
def isWSChar (c : Char) : Bool :=
  c == ' ' || c == '\t' || c == '\n' || c == '\r' ||
  c == Char.ofNat 11 || c == Char.ofNat 12 || c == Char.ofNat 0xA0

/-- Both-ends whitespace trim on character lists (JavaScript `trim`). -/
def trimChars (l : List Char) : List Char :=
  ((l.dropWhile isWSChar).reverse.dropWhile isWSChar).reverse

/-- String version of `trimChars`. -/
def trimStr (s : String) : String := (trimChars s.data).asString

/-- Substring test mirroring JavaScript `String.prototype.includes`. -/
def listContains (pat : List Char) : List Char → Bool
  | [] => pat.isEmpty
  | l@(_ :: t) => pat.isPrefixOf l || listContains pat t

/-- String version of `listContains`: does `s` contain `pat`. -/
def strContains (s pat : String) : Bool := listContains pat.data s.data

/-- Strip an expected literal prefix, returning the remainder on success. -/
def stripPrefixChars : List Char → List Char → Option (List Char)
  | [], l => some l
  | _ :: _, [] => none
  | p :: ps, c :: cs => if c == p then stripPrefixChars ps cs else none

/-- Lazy-quantifier capture: consume the shortest nonempty run of
non-line-terminator characters after which `delim` matches; `acc` holds the
characters consumed so far, in reverse. -/
def grabUntil (delim : List Char) : List Char → List Char → Option (List Char)
  | acc, [] => if !acc.isEmpty && delim.isPrefixOf [] then some acc.reverse else none
  | acc, c :: rest =>
    if !acc.isEmpty && delim.isPrefixOf (c :: rest) then some acc.reverse
    else if isNL c then none else grabUntil delim (c :: acc) rest

/-- Leftmost-match scan: try the matcher at every position, left to right. -/
def scanFirst (tryAt : List Char → Option (List Char)) : List Char → Option (List Char)
  | [] => none
  | l@(_ :: rest) =>
    match tryAt l with
    | some r => some r
    | none => scanFirst tryAt rest

/-- No backtick occurs in the character list. -/
def NoBTL (l : List Char) : Prop := ∀ c ∈ l, c ≠ backtickChar

/-- No backtick occurs in the string. -/
def NoBT (s : String) : Prop := NoBTL s.data

instance (l : List Char) : Decidable (NoBTL l) := by
  unfold NoBTL
  infer_instance

instance (s : String) : Decidable (NoBT s) := by
  unfold NoBT
  infer_instance

/-- The sixteen uppercase hexadecimal digit characters. -/
def hexDigits : List Char :=
  ['0', '1', '2', '3', '4', '5', '6', '7', '8', '9', 'A', 'B', 'C', 'D', 'E', 'F']

/-- Hexadecimal digit character for a nibble. -/
def hexDigitChar (n : Nat) : Char := hexDigits.getD n '0'

/-- UTF-8 byte sequence of a character. -/
def utf8Bytes (c : Char) : List Nat :=
  let n := c.toNat
  if n < 128 then [n]
  else if n < 2048 then [192 + n / 64, 128 + n % 64]
  else if n < 65536 then [224 + n / 4096, 128 + (n / 64) % 64, 128 + n % 64]
  else [240 + n / 262144, 128 + (n / 4096) % 64, 128 + (n / 64) % 64, 128 + n % 64]

/-- Percent-encoding of one character, byte by byte, uppercase hex. -/
def percentEncodeChar (c : Char) : List Char :=
  (utf8Bytes c).foldr (fun b acc => '%' :: hexDigitChar (b / 16) :: hexDigitChar (b % 16) :: acc) []

/-- Characters JavaScript `encodeURI` leaves unescaped. -/
def uriKeepChar (c : Char) : Bool :=
  c.isAlphanum ||
  ([';', ',', '/', '?', ':', '@', '&', '=', '+', '$', '-', '_', '.', '!', '~', '*',
    Char.ofNat 39, '(', ')', '#'].contains c)

/-- Characters JavaScript `encodeURIComponent` leaves unescaped. -/
def uriComponentKeepChar (c : Char) : Bool :=
  c.isAlphanum ||
  (['-', '_', '.', '!', '~', '*', Char.ofNat 39, '(', ')'].contains c)

/-- Generic percent encoder over a keep-set. -/
def encodeWith (keep : Char → Bool) (s : String) : String :=
  (s.data.foldr (fun c acc => (if keep c then [c] else percentEncodeChar c) ++ acc) []).asString

/-- JavaScript `encodeURI`. -/
def encodeURI (s : String) : String := encodeWith uriKeepChar s

/-- JavaScript `encodeURIComponent`. -/
def encodeURIComponent (s : String) : String := encodeWith uriComponentKeepChar s

/-- The apostrophe character as a one-character string. -/
def apos : String := String.mk [Char.ofNat 39]

/-- Join lines with newline separators, as `lines.join` + a trailing-free
`'\n'` separator does in the sources. -/
def joinLines : List String → String
  | [] => ""
  | [l] => l
  | l :: rest => l ++ "\n" ++ joinLines rest

/-- Split a list into chunks of `n` (the remote side's page size). -/
def chunksOf (n : Nat) (l : List α) : List (List α) :=
  match n, l with
  | _, [] => []
  | 0, _ => []
  | m + 1, x :: xs => ((x :: xs).take (m + 1)) :: chunksOf (m + 1) ((x :: xs).drop (m + 1))
  termination_by l.length
  decreasing_by
    simp only [List.length_drop]
    simp only [List.length_cons]
    omega

namespace Build

/-!
Embedding of `scripts/masonry-reactions.js` (the build-time reconciler).
`hexo.log` calls, the HTTPS transport and the PAT are irrelevant to the
mutation behaviour and are dropped; every mutating GraphQL call becomes a
`Mutation` value, emitted in the order the script would issue it.
-/

/-- Title marker for reactions discussions (source constant `REACTIONS_PREFIX`). -/
def REACTIONS_TAG : String := "[masonry-reactions] "

/-- One entry of a masonry page's image list (`masonry.yml`): the `image`
path, optional `title`/`description` (JavaScript `|| ''` collapses a missing
field and the empty string, so the empty string models absence), and the
EXIF-like key/value fields present on the entry. -/
structure ImageData where
  image : String
  title : String := ""
  description : String := ""
  exif : List (String × String) := []
deriving DecidableEq, Repr

/-- Context threaded into the body builders (source object `context`). -/
structure Context where
  pageTitle : String
  pagePath : String
  imageCount : Nat
  siteUrl : String
  blogTitle : String
  blogAuthor : String
  avifEnabled : Bool
deriving DecidableEq, Repr

/-- A fetched discussion comment (GraphQL node `{ id body }`). -/
structure Comment where
  id : String
  body : String
deriving DecidableEq, Repr

/-- One page of a comment connection (`nodes` + `pageInfo`); the cursor is
abstracted to a numeric index. -/
structure CommentPage where
  nodes : List Comment
  hasNextPage : Bool
  endCursor : Option Nat
deriving DecidableEq, Repr

/-- A discussion as returned by the batch search (fields the script reads).
`body = none` models the JavaScript `undefined` of a freshly created
discussion object, which carries no `body` field. -/
structure Discussion where
  id : String
  number : Nat
  title : String
  body : Option String
  locked : Bool
  comments : CommentPage
deriving DecidableEq, Repr

/-- The mutating GraphQL operations of the script, in the shape it issues
them. `deleteComment` (GraphQL `deleteDiscussionComment`) is part of the
API vocabulary the specification talks about; the script never issues it,
and the constructor exists so deletion-based postconditions can be stated. -/
inductive Mutation where
  | createDiscussion (title body : String)
  | updateDiscussionBody (discussionId body : String)
  | updateComment (commentId body : String)
  | addComment (discussionId body : String)
  | lockDiscussion (lockableId : String)
  | unlockDiscussion (lockableId : String)
  | deleteComment (commentId : String)
deriving DecidableEq, Repr

/-- Character-wise HTML escaping; the source's chain of global `replace`
calls for `&`, `<`, `>`, `"` (in that order) never rewrites the entity text
introduced by an earlier step, so it equals this single pass. -/
def escapeHtmlChar (c : Char) : List Char :=
  if c == '&' then "&amp;".data
  else if c == '<' then "&lt;".data
  else if c == '>' then "&gt;".data
  else if c == '"' then "&quot;".data
  else [c]

/-- Source helper `escapeHtml` (empty input yields the empty string). -/
def escapeHtml (s : String) : String :=
  (s.data.foldr (fun c acc => escapeHtmlChar c ++ acc) []).asString

/-- Lowercase a string character-wise (JavaScript `toLowerCase` on ASCII). -/
def toLowerStr (s : String) : String := (s.data.map Char.toLower).asString

/-- Node `path.extname`: the extension of the last path segment, empty when
the segment has no dot or only a leading dot. -/
def extname (s : String) : String :=
  let base := (s.data.reverse.takeWhile (fun c => c != '/')).reverse
  let afterDotRev := base.reverse.takeWhile (fun c => c != '.')
  if afterDotRev.length == base.length then ""
  else if afterDotRev.length + 1 == base.length then ""
  else ('.' :: afterDotRev.reverse).asString

/-- Node `path.posix.dirname` (relative-path cases). -/
def dirname (s : String) : String :=
  let d := (s.data.reverse.dropWhile (fun c => c != '/')).reverse
  if d == [] then "."
  else if d == ['/'] then "/"
  else d.dropLast.asString

/-- Node `path.posix.basename s ext`: the last path segment with a matching
`ext` suffix stripped (unless the segment is exactly the suffix). -/
def basenameStrip (s ext : String) : String :=
  let base := (s.data.reverse.takeWhile (fun c => c != '/')).reverse
  if !ext.data.isEmpty && ext.data.isSuffixOf base && base ≠ ext.data then
    (base.take (base.length - ext.data.length)).asString
  else base.asString

/-- Bitmap extensions eligible for AVIF conversion (source `BITMAP_EXTS`). -/
def BITMAP_EXTS : List String := [".jpg", ".jpeg", ".png", ".gif", ".webp"]

/-- Source helper `buildImageUrl`: absolute image URL, switched to the
optimized AVIF path when enabled and the file is a bitmap. -/
def buildImageUrl (siteUrl imageId : String) (avifEnabled : Bool) : String :=
  let ext := toLowerStr (extname imageId)
  let isBitmap := BITMAP_EXTS.contains ext
  let imagePath :=
    if avifEnabled && isBitmap then
      let base := basenameStrip imageId ext
      let dir := dirname imageId
      let relDir := if dir == "." then "masonry" else "masonry/" ++ dir
      "build/" ++ relDir ++ "/" ++ base ++ ".avif"
    else "masonry/" ++ imageId
  siteUrl ++ "/" ++ encodeURI imagePath

/-- The EXIF field definitions of the source (`FIELD_DEFS`): key, label. -/
def FIELD_DEFS : List (String × String) :=
  [("make", "Camera"), ("model", "Model"), ("lensModel", "Lens"),
   ("focalLength", "Focal Length"), ("aperture", "Aperture"),
   ("exposureTime", "Shutter"), ("ISOSpeedRatings", "ISO"),
   ("exposureProgram", "Exposure Program"), ("exposureBias", "Exposure Comp."),
   ("meteringMode", "Metering"), ("flash", "Flash"),
   ("whiteBalance", "White Balance"), ("focusMode", "Focus Mode"),
   ("dateTimeOriginal", "Date Taken"), ("GPSLatitude", "Latitude"),
   ("GPSLongitude", "Longitude"), ("GPSAltitude", "Altitude")]

/-- Read one EXIF-like field off the manifest entry (JavaScript property
lookup `imageData[key]`). -/
def lookupExifRaw (d : ImageData) (key : String) : Option String :=
  (d.exif.find? (fun p => p.1 == key)).map (fun p => p.2)

/-- Source helper `extractExifFields`: the label/value rows for the
non-empty fields, values trimmed, in `FIELD_DEFS` order. -/
def extractExifFields (imageData : ImageData) : List (String × String) :=
  FIELD_DEFS.filterMap (fun fd =>
    match lookupExifRaw imageData fd.1 with
    | some v => if trimStr v != "" then some (fd.2, trimStr v) else none
    | none => none)

/-- Source helper `buildDiscussionBody`: the friendly discussion body. -/
def buildDiscussionBody (ctx : Context) : String :=
  let pageUrl := ctx.siteUrl ++ "/" ++ encodeURI ctx.pagePath
  joinLines
    ["# " ++ ctx.pageTitle,
     "",
     "Hey there! This is the reactions tracker for **[" ++ ctx.pageTitle ++ "](" ++ pageUrl ++ ")**.",
     "",
     "This gallery has **" ++ toString ctx.imageCount ++ "** photos. Each comment below represents one photo.",
     "",
     "If you see something you like, leave a :heart: **heart reaction** on its comment " ++
       "and it" ++ apos ++ "ll show up as a like on the [gallery page](" ++ pageUrl ++ "). " ++
       "You can also click the heart button directly on the gallery!",
     "",
     "> **Note:** Only :heart: heart reactions are counted as likes. " ++
       "Other emoji reactions, upvotes, or discussion votes won" ++ apos ++ "t be tracked.",
     "",
     "---",
     "",
     "**" ++ ctx.blogTitle ++ "** by " ++ ctx.blogAuthor ++ " | [" ++ ctx.siteUrl ++ "](" ++ ctx.siteUrl ++ ")",
     "",
     "*Powered by [hexo-theme-redefine-x](https://github.com/EvanNotFound/hexo-theme-redefine) masonry reactions*"]

/-- The lines the source pushes for a comment body before the trailing
blank line and marker line, in push order. -/
def buildCommentBodyMain (imageData : ImageData) (ctx : Context) : List String :=
  let imageId := imageData.image
  let title := imageData.title
  let description := imageData.description
  let altText := escapeHtml (if title != "" then title else imageId)
  let pageUrl := ctx.siteUrl ++ "/" ++ encodeURI ctx.pagePath
  let imageUrl := buildImageUrl ctx.siteUrl imageId ctx.avifEnabled
  let exifFields := extractExifFields imageData
  ["Love this shot? Head over to [" ++ ctx.pageTitle ++ "](" ++ pageUrl ++
     ") and drop a heart, or react with :heart: right here!",
   ""]
  ++ (if title != "" then ["### " ++ title, ""] else [])
  ++ (if description != "" then ["> " ++ description, ""] else [])
  ++ (if !exifFields.isEmpty then
        ["<table>",
         "  <tr>",
         "    <td width=\"60%\" align=\"center\"><img src=\"" ++ imageUrl ++ "\" alt=\"" ++ altText ++ "\" width=\"400\" /></td>",
         "    <td width=\"40%\">"]
        ++ exifFields.map (fun f =>
             "      <b>" ++ escapeHtml f.1 ++ ":</b> " ++ escapeHtml f.2 ++ "<br>")
        ++ ["    </td>",
            "  </tr>",
            "</table>"]
      else
        ["<p align=\"center\"><img src=\"" ++ imageUrl ++ "\" alt=\"" ++ altText ++ "\" width=\"400\" /></p>"])

/-- The lines the source pushes for a comment body, in push order: the main
content followed by a blank line and the visible marker line. -/
def buildCommentBodyLines (imageData : ImageData) (ctx : Context) : List String :=
  buildCommentBodyMain imageData ctx
  ++ ["",
      "`masonry-image:" ++ imageData.image ++ "`"]

/-- Source helper `buildCommentBody`. -/
def buildCommentBody (imageData : ImageData) (ctx : Context) : String :=
  joinLines (buildCommentBodyLines imageData ctx)

/-- The literal prefix of the visible marker regex. -/
def markerPat : String := "`masonry-image:"

/-- The literal prefix of the legacy HTML-comment marker regex. -/
def legacyPat : String := "<!-- masonry-image-id: "

/-- One attempt of the marker regex at a fixed position. -/
def tryMarkerAt (l : List Char) : Option (List Char) :=
  match stripPrefixChars markerPat.data l with
  | some rest => grabUntil [backtickChar] [] rest
  | none => none

/-- One attempt of the legacy regex at a fixed position. -/
def tryLegacyAt (l : List Char) : Option (List Char) :=
  match stripPrefixChars legacyPat.data l with
  | some rest => grabUntil " -->".data [] rest
  | none => none

/-- Source helper `parseImageId` (build side): the visible backtick marker
first, the legacy HTML comment as fallback, captured text trimmed. -/
def parseImageId (commentBody : String) : Option String :=
  if commentBody == "" then none
  else
    match scanFirst tryMarkerAt commentBody.data with
    | some content => some (trimChars content).asString
    | none =>
      match scanFirst tryLegacyAt commentBody.data with
      | some content => some (trimChars content).asString
      | none => none

/-- Source helper `hasVisibleImageTag`. -/
def hasVisibleImageTag (commentBody : String) : Bool :=
  commentBody != "" && strContains commentBody "`masonry-image:"

/-- Source helper `isCurrentFormat`: body has an image preview and the
visible marker. -/
def isCurrentFormat (commentBody : String) : Bool :=
  commentBody != "" && strContains commentBody "<img " && strContains commentBody "`masonry-image:"

/-- The comment-fetch loop of `processPageReactions` step 2: start from the
discussion's first comment page and, while `hasNextPage` and a cursor are
present, append the page each successive `fetchRemainingComments` call
returns. The remote side is modelled as the sequence `extra` of pages those
successive cursor fetches yield; an exhausted `extra` models a fetch that
returns nothing (the loop's `break`). -/
def collectComments : CommentPage → List CommentPage → List Comment
  | page, extra =>
    if page.hasNextPage && page.endCursor.isSome then
      match extra with
      | [] => page.nodes
      | next :: more => page.nodes ++ collectComments next more
    else page.nodes

/-- Wrap chunks as comment pages: every page but the last advertises a
continuation cursor. -/
def mkCommentPages : List (List Comment) → List CommentPage
  | [] => []
  | [c] => [⟨c, false, none⟩]
  | c :: c2 :: rest => ⟨c, true, some 0⟩ :: mkCommentPages (c2 :: rest)

/-- A remote comment list of arbitrary length, as the 100-per-request
paginated connection GitHub serves it: the first page plus the pages the
continuation cursors return. -/
def paginateComments (cs : List Comment) : CommentPage × List CommentPage :=
  match mkCommentPages (chunksOf 100 cs) with
  | [] => (⟨[], false, none⟩, [])
  | p :: ps => (p, ps)

/-- The `imageDataMap` object of `processPageReactions`: keyed by
`img.image` for entries with a truthy `image`, later entries overwriting
earlier ones. -/
def imageDataMap (images : List ImageData) (imageId : String) : Option ImageData :=
  ((images.filter (fun i => i.image != "")).reverse).find? (fun i => i.image == imageId)

/-- Accumulator of the classification loop (step 3 of the source):
`ids` collects every parsed image id in fetch order (the JavaScript `Set`
only ever being queried for membership), `updates` the comments needing a
format upgrade, in fetch order. -/
structure Classify where
  ids : List String
  updates : List (String × ImageData)
deriving DecidableEq, Repr

/-- One iteration of the classification loop over a fetched comment. -/
def classifyStep (images : List ImageData) (acc : Classify) (c : Comment) : Classify :=
  match parseImageId c.body with
  | none => acc
  | some imageId =>
    let acc1 : Classify := ⟨acc.ids ++ [imageId], acc.updates⟩
    if isCurrentFormat c.body then acc1
    else
      match imageDataMap images imageId with
      | none => acc1
      | some d => ⟨acc1.ids, acc1.updates ++ [(c.id, d)]⟩

/-- The classification loop (step 3 of `processPageReactions`). -/
def classify (images : List ImageData) (cs : List Comment) : Classify :=
  cs.foldl (classifyStep images) ⟨[], []⟩

/-- The discussion the rest of the page processing works on: the one the
batch search found, or the freshly created one (step 1 of the source);
a created discussion has no `body` field, is unlocked and has an empty
comment connection. `createdId`/`createdNumber` stand for the identifiers
the `createDiscussion` mutation response returns. -/
def effDiscussion (pagePath : String) (discussion? : Option Discussion)
    (createdId : String) (createdNumber : Nat) : Discussion :=
  match discussion? with
  | some d => d
  | none =>
    ⟨createdId, createdNumber, REACTIONS_TAG ++ pagePath, none, false, ⟨[], false, none⟩⟩

/-- The `createDiscussion` mutation of step 1, when no discussion exists. -/
def createMutations (pagePath : String) (discussion? : Option Discussion)
    (ctx : Context) : List Mutation :=
  match discussion? with
  | some _ => []
  | none => [Mutation.createDiscussion (REACTIONS_TAG ++ pagePath) (buildDiscussionBody ctx)]

/-- Step 1b of the source: update the discussion body unless it already
contains the new-format signature. -/
def bodyMutations (d : Discussion) (ctx : Context) : List Mutation :=
  match d.body with
  | none => []
  | some b =>
    if b != "" && strContains b "hexo-theme-redefine-x" then []
    else [Mutation.updateDiscussionBody d.id (buildDiscussionBody ctx)]

/-- Steps 4-8 of the source: decide the needed work from the classification,
then unlock if necessary, update outdated comments, add comments for new
images, and re-lock. -/
def workMutations (d : Discussion) (images : List ImageData)
    (allComments : List Comment) (ctx : Context) : List Mutation :=
  let cl := classify images allComments
  let newImages := images.filter (fun img => !(cl.ids.contains img.image))
  if newImages.isEmpty && cl.updates.isEmpty then
    if d.locked then [] else [Mutation.lockDiscussion d.id]
  else
    (if d.locked then [Mutation.unlockDiscussion d.id] else [])
    ++ cl.updates.map (fun u => Mutation.updateComment u.1 (buildCommentBody u.2 ctx))
    ++ newImages.map (fun img => Mutation.addComment d.id (buildCommentBody img ctx))
    ++ [Mutation.lockDiscussion d.id]

/-- Source `processPageReactions`, as the ordered list of mutating GraphQL
calls it issues for one masonry page on its non-aborted path (rate-limit
aborts are modelled separately by the executor; a page hit by one stops at
the failing call). -/
def processPageReactions (pagePath : String) (images : List ImageData)
    (discussion? : Option Discussion) (extra : List CommentPage)
    (ctx : Context) (createdId : String) (createdNumber : Nat) : List Mutation :=
  createMutations pagePath discussion? ctx
  ++ bodyMutations (effDiscussion pagePath discussion? createdId createdNumber) ctx
  ++ workMutations (effDiscussion pagePath discussion? createdId createdNumber) images
      (collectComments (effDiscussion pagePath discussion? createdId createdNumber).comments extra) ctx

/-- Is this mutation a comment deletion of the given comment. -/
def isDeletedBy (ms : List Mutation) (c : Comment) : Bool :=
  ms.any (fun m =>
    match m with
    | Mutation.deleteComment cid => cid == c.id
    | _ => false)

/-- The fetched comments still present after the pass: those no issued
mutation deleted. -/
def survivingComments (cs : List Comment) (ms : List Mutation) : List Comment :=
  cs.filter (fun c => !isDeletedBy ms c)

/-!
Embedding of `executeMutation` and the `before_generate` page loop.
The process-wide variables `rateLimitRemaining` and `abortAll` become an
explicit `MutState`; each HTTP attempt's outcome (the behaviour of the
network and of GitHub) is an input `AttemptResp`, consumed one per attempt.
-/

/-- The module-level rate-limit state of the script. -/
structure MutState where
  rateLimitRemaining : Option Int
  abortAll : Bool
deriving DecidableEq, Repr

/-- What one `graphqlRequest` attempt comes back with: a transport error,
or a parsed reply carrying the GraphQL `errors` messages (empty for
success), the `retry-after` header in seconds if present, and the
`x-ratelimit-remaining` header if present. -/
inductive AttemptResp where
  | netError (msg : String)
  | reply (errors : List String) (retryAfter : Option Nat) (newRemaining : Option Int)
deriving DecidableEq, Repr

/-- Result of one `executeMutation` call: the thrown error or success, the
rate-limit state afterwards, how many HTTP requests were issued, and the
seconds of secondary-rate-limit backoff waited. -/
structure ExecResult where
  outcome : Except String Unit
  state : MutState
  calls : Nat
  backoffWaits : List Nat
deriving Repr

/-- The source's secondary-rate-limit detection over the error messages. -/
def isSecondaryRateLimit (errors : List String) : Bool :=
  errors.any (fun m =>
    strContains m "submitted too quickly" || strContains m "abuse" ||
    strContains m "secondary rate limit")

/-- The primary-rate-limit test `rateLimitRemaining !== null && rateLimitRemaining <= 0`. -/
def rateLimited (st : MutState) : Bool :=
  match st.rateLimitRemaining with
  | some r => r ≤ 0
  | none => false

/-- Header update performed inside `graphqlRequest`: a present
`x-ratelimit-remaining` header overwrites the cached counter. -/
def applyHeader (st : MutState) (newRemaining : Option Int) : MutState :=
  match newRemaining with
  | some v => ⟨some v, st.abortAll⟩
  | none => st

/-- Serialization of the GraphQL errors in the thrown message (stands for
the source's `JSON.stringify(responseData.errors)`). -/
def renderErrors (errors : List String) : String :=
  String.intercalate "; " errors

/-- The attempt loop of `executeMutation` at loop counter `attempt`: abort
check, primary-limit check before the call (setting the global abort flag
and failing without issuing the request), the HTTP attempt, the
primary-limit check after the response, then secondary-rate-limit backoff
and retry, bounded at three attempts. An exhausted `resps` stands for an
environment that never answers. -/
def execGo (label : String) : Nat → MutState → List AttemptResp → ExecResult
  | _, st, [] =>
    if st.abortAll then
      ⟨Except.error "Aborted: primary rate limit reached", st, 0, []⟩
    else if rateLimited st then
      ⟨Except.error "Aborted: X-RateLimit-Remaining is 0", ⟨st.rateLimitRemaining, true⟩, 0, []⟩
    else ⟨Except.error "no response", st, 0, []⟩
  | attempt, st, AttemptResp.netError msg :: rest =>
    if st.abortAll then
      ⟨Except.error "Aborted: primary rate limit reached", st, 0, []⟩
    else if rateLimited st then
      ⟨Except.error "Aborted: X-RateLimit-Remaining is 0", ⟨st.rateLimitRemaining, true⟩, 0, []⟩
    else if attempt < 2 then
      ⟨(execGo label (attempt + 1) st rest).outcome,
       (execGo label (attempt + 1) st rest).state,
       (execGo label (attempt + 1) st rest).calls + 1,
       (execGo label (attempt + 1) st rest).backoffWaits⟩
    else ⟨Except.error msg, st, 1, []⟩
  | attempt, st, AttemptResp.reply errors retryAfter newRemaining :: rest =>
    if st.abortAll then
      ⟨Except.error "Aborted: primary rate limit reached", st, 0, []⟩
    else if rateLimited st then
      ⟨Except.error "Aborted: X-RateLimit-Remaining is 0", ⟨st.rateLimitRemaining, true⟩, 0, []⟩
    else if rateLimited (applyHeader st newRemaining) then
      ⟨Except.error "Aborted: X-RateLimit-Remaining is 0",
       ⟨(applyHeader st newRemaining).rateLimitRemaining, true⟩, 1, []⟩
    else if !errors.isEmpty then
      if isSecondaryRateLimit errors && attempt < 2 then
        ⟨(execGo label (attempt + 1) (applyHeader st newRemaining) rest).outcome,
         (execGo label (attempt + 1) (applyHeader st newRemaining) rest).state,
         (execGo label (attempt + 1) (applyHeader st newRemaining) rest).calls + 1,
         retryAfter.getD ((attempt + 1) * 5) ::
           (execGo label (attempt + 1) (applyHeader st newRemaining) rest).backoffWaits⟩
      else ⟨Except.error (label ++ " failed: " ++ renderErrors errors),
            applyHeader st newRemaining, 1, []⟩
    else ⟨Except.ok (), applyHeader st newRemaining, 1, []⟩

/-- Source `executeMutation`: the attempt loop started at attempt 0. -/
def executeMutation (label : String) (st : MutState) (resps : List AttemptResp) : ExecResult :=
  execGo label 0 st resps

/-- One page's mutating calls run sequentially through `executeMutation`;
the first thrown error is caught by `processPageReactions`'s `try/catch`,
which returns `false` for the page. Yields the final state, the page's
success flag, and the number of HTTP requests issued. -/
def execPage : MutState → List (String × List AttemptResp) → MutState × Bool × Nat
  | st, [] => (st, true, 0)
  | st, (label, resps) :: rest =>
    let r := executeMutation label st resps
    match r.outcome with
    | Except.error _ => (r.state, false, r.calls)
    | Except.ok _ =>
      let out := execPage r.state rest
      (out.1, out.2.1, r.calls + out.2.2)

/-- The `before_generate` page loop: pages are processed sequentially, the
loop breaks as soon as `abortAll` is set, and `successCount` counts the
pages that returned `true`. Yields the final state, the success count of
the `N/M` summary, and the total number of HTTP requests issued. -/
def runBuild : MutState → Nat → Nat → List (List (String × List AttemptResp)) → MutState × Nat × Nat
  | st, count, calls, [] => (st, count, calls)
  | st, count, calls, p :: rest =>
    if st.abortAll then (st, count, calls)
    else
      let out := execPage st p
      runBuild out.1 (if out.2.1 then count + 1 else count) (calls + out.2.2) rest

end Build

namespace Client

/-!
Embedding of `source/js/plugins/masonry-reactions.source.js` (the runtime
Reaction Client). DOM rendering is abstracted to the per-image reaction
state the script maintains and pushes into `updateHeartButton`; the click
handler becomes a pure function of the pre-click state and the mutation's
success, yielding the post-click state, any navigation, the number of
toggle mutations fired, and whether the cache entry was cleared.
-/

/-- The giscus origin constant. -/
def GISCUS_ORIGIN : String := "https://giscus.app"

/-- One giscus-adapted comment as the client reads it: `id`, rendered
`bodyHTML`, and the `reactions.HEART` aggregate if present (`none` models a
missing `reactions` object or `HEART` entry, read through `?.` and
defaulted by `|| 0` / `|| false`). -/
structure ClientComment where
  id : String
  bodyHTML : String
  reactionsHeartCount : Option Int
  reactionsHeartViewer : Option Bool
deriving DecidableEq, Repr

/-- The per-image reaction state (`imageReactions[imageId]`). -/
structure Reaction where
  commentId : String
  heartCount : Int
  viewerHasReacted : Bool
deriving DecidableEq, Repr

/-- One attempt of the client regex at a fixed position: literal `<code`,
the greedy `[^>]*` up to the closing `>`, the literal `masonry-image:`,
then the lazy capture up to `</code>`. -/
def tryCodeAt (l : List Char) : Option (List Char) :=
  match stripPrefixChars "<code".data l with
  | none => none
  | some rest =>
    match skipToGt rest with
    | none => none
    | some rest2 =>
      match stripPrefixChars "masonry-image:".data rest2 with
      | some rest3 => grabUntil "</code>".data [] rest3
      | none => none
where
  /-- Consume `[^>]*` followed by the literal `>`. -/
  skipToGt : List Char → Option (List Char)
    | [] => none
    | c :: rest => if c == '>' then some rest else skipToGt rest

/-- Source client `parseImageId`: extract the image id from the rendered
`bodyHTML` via the `<code>masonry-image:...</code>` span. -/
def parseImageId (bodyHTML : String) : Option String :=
  if bodyHTML == "" then none
  else (scanFirst tryCodeAt bodyHTML.data).map (fun content => (trimChars content).asString)

/-- Source `applyReactions`: rebuild `imageReactions` from the fetched
comments; each parseable comment assigns its image id, a later assignment
overwriting an earlier one (modelled by prepending, with lookup taking the
first hit). -/
def applyReactions (comments : List ClientComment) : List (String × Reaction) :=
  comments.foldl
    (fun acc c =>
      match parseImageId c.bodyHTML with
      | none => acc
      | some imageId =>
        (imageId, ⟨c.id, c.reactionsHeartCount.getD 0, c.reactionsHeartViewer.getD false⟩) :: acc)
    []

/-- Property read `imageReactions[imageId]` on the rebuilt map. -/
def lookupReaction (m : List (String × Reaction)) (imageId : String) : Option Reaction :=
  (m.find? (fun p => p.1 == imageId)).map (fun p => p.2)

/-- Source `getGiscusLoginUrl`: the OAuth authorize URL carrying the current
location as the redirect target. -/
def getGiscusLoginUrl (href : String) : String :=
  GISCUS_ORIGIN ++ "/api/oauth/authorize?redirect_uri=" ++ encodeURIComponent href

/-- Observable outcome of one `handleHeartClick` invocation. -/
structure ClickResult where
  reaction : Option Reaction
  navigation : Option String
  mutationsIssued : Nat
  cacheCleared : Bool
deriving DecidableEq, Repr

/-- Source `handleHeartClick`: ignore clicks while loading; anonymous
clicks navigate to the OAuth authorize URL; authenticated clicks apply the
optimistic toggle, fire the reaction-toggle mutation, clear the page's
cache entry on success (when the page config is present) and restore the
pre-click values on failure. `reaction` is the displayed state of the
clicked image afterwards (the last `updateHeartButton` values). -/
def handleHeartClick (isLoading isAuthenticated : Bool) (userToken : Option String)
    (configPresent : Bool) (href : String) (reaction? : Option Reaction)
    (mutationSucceeds : Bool) : ClickResult :=
  if isLoading then ⟨reaction?, none, 0, false⟩
  else if !isAuthenticated || userToken.isNone then
    ⟨reaction?, some (getGiscusLoginUrl href), 0, false⟩
  else
    match reaction? with
    | none => ⟨none, none, 0, false⟩
    | some reaction =>
      let currentlyReacted := reaction.viewerHasReacted
      let currentCount := reaction.heartCount
      let newCount : Int := if currentlyReacted then max 0 (currentCount - 1) else currentCount + 1
      let newReacted := !currentlyReacted
      if mutationSucceeds then
        ⟨some ⟨reaction.commentId, newCount, newReacted⟩, none, 1, configPresent⟩
      else
        ⟨some ⟨reaction.commentId, currentCount, currentlyReacted⟩, none, 1, false⟩

/-- One page of the giscus `/api/discussions` response the client consumes:
the discussion's comments plus its `pageInfo`. -/
structure ClientPage where
  comments : List ClientComment
  hasNextPage : Bool
  endCursor : Option Nat
deriving DecidableEq, Repr

/-- The pagination loop of `fetchAllComments`: keep requesting while
`hasNextPage` and a cursor are present, merging every page; `extra` is the
sequence of pages the successive cursor fetches return (exhaustion models a
failed fetch, i.e. the loop's `break`). -/
def collectClientComments : ClientPage → List ClientPage → List ClientComment
  | page, extra =>
    if page.hasNextPage && page.endCursor.isSome then
      match extra with
      | [] => page.comments
      | next :: more => page.comments ++ collectClientComments next more
    else page.comments

/-- Source `fetchAllComments`: `none` when the first request yields no
discussion, otherwise the union of all comment pages. -/
def fetchAllComments : Option (ClientPage × List ClientPage) → Option (List ClientComment)
  | none => none
  | some (first, extra) => some (collectClientComments first extra)

/-- The association entry a fetched comment contributes to `imageReactions`,
when its body parses. -/
def clientEntry (c : ClientComment) : Option (String × Reaction) :=
  (parseImageId c.bodyHTML).map
    (fun imageId => (imageId, ⟨c.id, c.reactionsHeartCount.getD 0, c.reactionsHeartViewer.getD false⟩))

/-- Wrap chunks of comments as giscus pages, every page but the last
advertising a continuation cursor. -/
def mkClientPages : List (List ClientComment) → List ClientPage
  | [] => []
  | [c] => [⟨c, false, none⟩]
  | c :: c2 :: rest => ⟨c, true, some 0⟩ :: mkClientPages (c2 :: rest)

/-- A remote comment list as the 100-per-request giscus pagination serves
it. -/
def paginateClientComments (cs : List ClientComment) : ClientPage × List ClientPage :=
  match mkClientPages (chunksOf 100 cs) with
  | [] => (⟨[], false, none⟩, [])
  | p :: ps => (p, ps)

end Client

/-!
Concrete fixtures used by the closed instances below.
-/

/-- A concrete build context. -/
def ctx0 : Build.Context :=
  ⟨"P", "masonry/p/", 1, "https://example.com", "Blog", "Author", false⟩

/-- The spec's example manifest entry. -/
def sunsetEntry : Build.ImageData := ⟨"sunset.jpg", "Sunset", "", []⟩

/-- A manifest entry whose image id contains a backtick. -/
def backtickEntry : Build.ImageData :=
  ⟨"a" ++ String.mk [backtickChar] ++ "b", "", "", []⟩

/-- A one-image manifest. -/
def imgA : Build.ImageData := ⟨"a.jpg", "", "", []⟩

/-- Two current-format comments embedding the same image id, plus an orphan. -/
def dupComment1 : Build.Comment := ⟨"CA1", "<img `masonry-image:a.jpg`"⟩

/-- Second comment with the duplicate image id. -/
def dupComment2 : Build.Comment := ⟨"CA2", "<img `masonry-image:a.jpg`"⟩

/-- A comment whose image id is absent from the manifest. -/
def orphanComment : Build.Comment := ⟨"CO", "<img `masonry-image:gone.jpg`"⟩

/-- A fetched discussion holding the duplicate and orphan comments. -/
def dupDiscussion : Build.Discussion :=
  ⟨"D1", 1, "[masonry-reactions] masonry/p/", some "x hexo-theme-redefine-x y", true,
   ⟨[dupComment1, dupComment2, orphanComment], false, none⟩⟩

/-- A fully synced comment for `sunsetEntry`. -/
def syncedComment : Build.Comment := ⟨"C1", "<img `masonry-image:sunset.jpg`"⟩

/-- A fully synced discussion for the one-image page. -/
def syncedDiscussion : Build.Discussion :=
  ⟨"D1", 1, "[masonry-reactions] masonry/p/", some "x hexo-theme-redefine-x y", true,
   ⟨[syncedComment], false, none⟩⟩

/-- A fetched giscus comment for an anonymous viewer. -/
def anonComment : Client.ClientComment :=
  ⟨"C1", "<code>masonry-image:a.jpg</code>", some 3, none⟩

/-- First of two fetched comments embedding the same image id. -/
def dupClient1 : Client.ClientComment :=
  ⟨"K1", "<code>masonry-image:a.jpg</code>", some 1, none⟩

/-- Second of two fetched comments embedding the same image id. -/
def dupClient2 : Client.ClientComment :=
  ⟨"K2", "<code>masonry-image:a.jpg</code>", some 5, some false⟩

/-!
Helper lemmas.
-/

theorem noBTL_subset {l1 l2 : List Char} (h : l2 ⊆ l1) (hl : NoBTL l1) : NoBTL l2 :=
  fun c hc => hl c (h hc)

theorem noBTL_append {a b : List Char} (ha : NoBTL a) (hb : NoBTL b) : NoBTL (a ++ b) := by
  intro c hc
  rcases List.mem_append.mp hc with h | h
  · exact ha c h
  · exact hb c h

theorem noBT_append {s t : String} (hs : NoBT s) (ht : NoBT t) : NoBT (s ++ t) := by
  unfold NoBT
  rw [String.data_append]
  exact noBTL_append hs ht

theorem mem_trimChars {x : Char} {l : List Char} (h : x ∈ trimChars l) : x ∈ l := by
  unfold trimChars at h
  rw [List.mem_reverse] at h
  have h1 := (List.dropWhile_sublist (l := (l.dropWhile isWSChar).reverse) isWSChar).subset h
  rw [List.mem_reverse] at h1
  exact (List.dropWhile_sublist isWSChar).subset h1

theorem noBT_trimStr {s : String} (hs : NoBT s) : NoBT (trimStr s) := by
  intro c hc
  exact hs c (mem_trimChars hc)

theorem hexDigitChar_ne_backtick (n : Nat) : hexDigitChar n ≠ backtickChar := by
  unfold hexDigitChar
  rw [List.getD_eq_getElem?_getD]
  cases h : hexDigits[n]? with
  | none => simp only [Option.getD]; decide
  | some x =>
    have hx : x ∈ hexDigits := by
      have h2 : hexDigits.get? n = some x := by rw [List.get?_eq_getElem?]; exact h
      exact List.get?_mem h2
    simp only [Option.getD]
    fin_cases hx <;> decide

theorem percentEncodeChar_noBT (c : Char) : ∀ x ∈ percentEncodeChar c, x ≠ backtickChar := by
  unfold percentEncodeChar
  generalize utf8Bytes c = bs
  induction bs with
  | nil => intro x hx; simp at hx
  | cons b bs ih =>
    intro x hx
    simp only [List.foldr_cons, List.mem_cons] at hx
    rcases hx with h | h | h
    · subst h; decide
    · subst h; exact hexDigitChar_ne_backtick _
    · rcases h with h2 | h2
      · subst h2; exact hexDigitChar_ne_backtick _
      · exact ih x h2

theorem encodeWith_noBT (keep : Char → Bool) (hkeep : keep backtickChar = false)
    (s : String) : NoBT (encodeWith keep s) := by
  unfold NoBT encodeWith
  show NoBTL _
  have : ∀ l : List Char,
      NoBTL (l.foldr (fun c acc => (if keep c then [c] else percentEncodeChar c) ++ acc) []) := by
    intro l
    induction l with
    | nil => intro c hc; simp at hc
    | cons c l ih =>
      intro x hx
      simp only [List.foldr_cons] at hx
      rcases List.mem_append.mp hx with h | h
      · by_cases hk : keep c = true
        · rw [if_pos hk] at h
          rcases List.mem_singleton.mp h with rfl
          intro hb; rw [hb] at hk; rw [hkeep] at hk; exact Bool.false_ne_true hk
        · rw [if_neg hk] at h
          exact percentEncodeChar_noBT c x h
      · exact ih x h
  exact this s.data

theorem encodeURI_noBT (s : String) : NoBT (encodeURI s) :=
  encodeWith_noBT uriKeepChar (by decide) s

theorem encodeURIComponent_noBT (s : String) : NoBT (encodeURIComponent s) :=
  encodeWith_noBT uriComponentKeepChar (by decide) s

theorem escapeHtmlChar_noBT {c : Char} (hc : c ≠ backtickChar) :
    ∀ x ∈ Build.escapeHtmlChar c, x ≠ backtickChar := by
  intro x hx
  unfold Build.escapeHtmlChar at hx
  split at hx
  · fin_cases hx <;> decide
  · split at hx
    · fin_cases hx <;> decide
    · split at hx
      · fin_cases hx <;> decide
      · split at hx
        · fin_cases hx <;> decide
        · rcases List.mem_singleton.mp hx with rfl; exact hc

theorem escapeHtml_noBT {s : String} (hs : NoBT s) : NoBT (Build.escapeHtml s) := by
  unfold NoBT Build.escapeHtml
  show NoBTL _
  have key : ∀ l : List Char, NoBTL l →
      NoBTL (l.foldr (fun c acc => Build.escapeHtmlChar c ++ acc) []) := by
    intro l hl
    induction l with
    | nil => intro c hc; simp at hc
    | cons c l ih =>
      intro x hx
      simp only [List.foldr_cons] at hx
      rcases List.mem_append.mp hx with h | h
      · exact escapeHtmlChar_noBT (hl c (by simp)) x h
      · exact ih (fun y hy => hl y (List.mem_cons_of_mem _ hy)) x h
  exact key s.data hs

theorem noBT_joinLines {L : List String} (h : ∀ s ∈ L, NoBT s) : NoBT (joinLines L) := by
  induction L with
  | nil => intro c hc; simp [joinLines] at hc
  | cons x L ih =>
    cases L with
    | nil => simpa [joinLines] using h x (by simp)
    | cons y L2 =>
      show NoBT (x ++ "\n" ++ joinLines (y :: L2))
      exact noBT_append (noBT_append (h x (by simp)) (by decide))
        (ih (fun s hs => h s (List.mem_cons_of_mem _ hs)))

theorem joinLines_append_last {L : List String} (m : String) (h : L ≠ []) :
    joinLines (L ++ [m]) = joinLines L ++ "\n" ++ m := by
  induction L with
  | nil => exact absurd rfl h
  | cons x L ih =>
    cases L with
    | nil => simp [joinLines]
    | cons y L2 =>
      have h1 : joinLines ((x :: y :: L2) ++ [m]) = x ++ "\n" ++ joinLines ((y :: L2) ++ [m]) := rfl
      have h2 : joinLines (x :: y :: L2) = x ++ "\n" ++ joinLines (y :: L2) := rfl
      rw [h1, ih (by simp), h2]
      simp [String.append_assoc]

theorem stripPrefixChars_self (p : List Char) (l : List Char) :
    stripPrefixChars p (p ++ l) = some l := by
  induction p with
  | nil => rfl
  | cons c p ih => simp [stripPrefixChars, ih]

theorem stripPrefixChars_ne {p : Char} (ps : List Char) {c : Char} (cs : List Char)
    (h : c ≠ p) : stripPrefixChars (p :: ps) (c :: cs) = none := by
  simp [stripPrefixChars, beq_eq_false_iff_ne.mpr h]

theorem grabUntil_backtick (id : List Char) (hne : id ≠ [])
    (hid : ∀ c ∈ id, c ≠ backtickChar ∧ isNL c = false) :
    ∀ (acc t : List Char),
      grabUntil [backtickChar] acc (id ++ backtickChar :: t) = some (acc.reverse ++ id) := by
  induction id with
  | nil => exact absurd rfl hne
  | cons x xs ih =>
    intro acc t
    have hx := hid x (by simp)
    show grabUntil [backtickChar] acc (x :: (xs ++ backtickChar :: t)) = _
    rw [grabUntil]
    have hpre : List.isPrefixOf [backtickChar] (x :: (xs ++ backtickChar :: t)) = false := by
      simp [List.isPrefixOf, beq_eq_false_iff_ne.mpr (Ne.symm hx.1)]
    rw [hpre, Bool.and_false, if_neg (by simp), if_neg (by simp [hx.2])]
    cases xs with
    | nil =>
      show grabUntil [backtickChar] (x :: acc) (backtickChar :: t) = _
      rw [grabUntil]
      simp [List.isPrefixOf, List.reverse_cons]
    | cons y ys =>
      rw [ih (by simp) (fun c hc => hid c (List.mem_cons_of_mem _ hc)) (x :: acc) t]
      simp [List.reverse_cons]

theorem tryMarkerAt_fail {c : Char} (l : List Char) (hc : c ≠ backtickChar) :
    Build.tryMarkerAt (c :: l) = none := by
  unfold Build.tryMarkerAt
  have hm : Build.markerPat.data = backtickChar :: "masonry-image:".data := by decide
  rw [hm, stripPrefixChars_ne _ _ hc]

theorem scanFirst_skip {a : List Char} (rest : List Char) (ha : NoBTL a) :
    scanFirst Build.tryMarkerAt (a ++ rest) = scanFirst Build.tryMarkerAt rest := by
  induction a with
  | nil => rfl
  | cons c a ih =>
    have hc := ha c (by simp)
    show scanFirst Build.tryMarkerAt (c :: (a ++ rest)) = _
    rw [scanFirst, tryMarkerAt_fail _ hc]
    exact ih (fun x hx => ha x (List.mem_cons_of_mem _ hx))

theorem scanFirst_marker_hit (id t : List Char) (hne : id ≠ [])
    (hid : ∀ c ∈ id, c ≠ backtickChar ∧ isNL c = false) :
    scanFirst Build.tryMarkerAt (Build.markerPat.data ++ (id ++ backtickChar :: t)) = some id := by
  have hm : Build.markerPat.data = backtickChar :: "masonry-image:".data := by decide
  rw [hm]
  show scanFirst Build.tryMarkerAt
      (backtickChar :: ("masonry-image:".data ++ (id ++ backtickChar :: t))) = some id
  rw [scanFirst]
  have hmatch : Build.tryMarkerAt
      (backtickChar :: ("masonry-image:".data ++ (id ++ backtickChar :: t))) = some id := by
    unfold Build.tryMarkerAt
    rw [hm]
    show (match stripPrefixChars (backtickChar :: "masonry-image:".data)
        ((backtickChar :: "masonry-image:".data) ++ (id ++ backtickChar :: t)) with
      | some rest => grabUntil [backtickChar] [] rest
      | none => none) = some id
    rw [stripPrefixChars_self]
    show grabUntil [backtickChar] [] (id ++ backtickChar :: t) = some id
    rw [grabUntil_backtick id hne hid [] t]
    simp
  rw [hmatch]

theorem extractExifFields_noBT (d : Build.ImageData) (hvals : ∀ p ∈ d.exif, NoBT p.2) :
    ∀ f ∈ Build.extractExifFields d, NoBT f.1 ∧ NoBT f.2 := by
  intro f hf
  unfold Build.extractExifFields at hf
  rcases List.mem_filterMap.mp hf with ⟨fd, hfd, hstep⟩
  cases hlook : Build.lookupExifRaw d fd.1 with
  | none =>
    rw [hlook] at hstep
    exact absurd hstep (by simp)
  | some v =>
    rw [hlook] at hstep
    have hstep2 : (if (trimStr v != "") = true then some (fd.2, trimStr v) else none)
        = some f := hstep
    by_cases htr : (trimStr v != "") = true
    · rw [if_pos htr] at hstep2
      have hv : NoBT v := by
        unfold Build.lookupExifRaw at hlook
        cases hfind : d.exif.find? (fun p => p.1 == fd.1) with
        | none => rw [hfind] at hlook; exact absurd hlook (by simp)
        | some p =>
          rw [hfind] at hlook
          have hp : p ∈ d.exif := List.mem_of_find?_eq_some hfind
          have : v = p.2 := by simpa using hlook.symm
          rw [this]
          exact hvals p hp
      have hlabel : NoBT fd.2 := by
        have hall : ∀ q ∈ Build.FIELD_DEFS, NoBT q.2 := by decide
        exact hall fd hfd
      have hf2 : f = (fd.2, trimStr v) := by
        have := Option.some.inj hstep2
        exact this.symm
      rw [hf2]
      exact ⟨hlabel, noBT_trimStr hv⟩
    · rw [if_neg htr] at hstep2
      exact absurd hstep2 (by simp)

theorem buildCommentBodyMain_noBT (e : Build.ImageData) (ctx : Build.Context)
    (hid : NoBT e.image) (htitle : NoBT e.title) (hdesc : NoBT e.description)
    (hexif : ∀ p ∈ e.exif, NoBT p.2) (hsite : NoBT ctx.siteUrl)
    (hpt : NoBT ctx.pageTitle) :
    ∀ s ∈ Build.buildCommentBodyMain e ctx, NoBT s := by
  have hpageUrl : NoBT (ctx.siteUrl ++ "/" ++ encodeURI ctx.pagePath) :=
    noBT_append (noBT_append hsite (by decide)) (encodeURI_noBT _)
  have himgUrl : NoBT (Build.buildImageUrl ctx.siteUrl e.image ctx.avifEnabled) := by
    simp only [Build.buildImageUrl]
    exact noBT_append (noBT_append hsite (by decide)) (encodeURI_noBT _)
  have halt : NoBT (Build.escapeHtml (if e.title != "" then e.title else e.image)) := by
    by_cases ht : (e.title != "") = true
    · rw [if_pos ht]; exact escapeHtml_noBT htitle
    · rw [if_neg ht]; exact escapeHtml_noBT hid
  intro s hs
  simp only [Build.buildCommentBodyMain] at hs
  rcases List.mem_append.mp hs with hs | hs
  · rcases List.mem_append.mp hs with hs | hs
    · rcases List.mem_append.mp hs with hs | hs
      · rcases List.mem_cons.mp hs with rfl | hs
        · exact noBT_append (noBT_append (noBT_append (noBT_append (by decide) hpt)
            (by decide)) hpageUrl) (by decide)
        · rcases List.mem_singleton.mp hs with rfl
          decide
      · by_cases ht : (e.title != "") = true
        · rw [if_pos ht] at hs
          rcases List.mem_cons.mp hs with rfl | hs
          · exact noBT_append (by decide) htitle
          · rcases List.mem_singleton.mp hs with rfl; decide
        · rw [if_neg ht] at hs; simp at hs
    · by_cases hd : (e.description != "") = true
      · rw [if_pos hd] at hs
        rcases List.mem_cons.mp hs with rfl | hs
        · exact noBT_append (by decide) hdesc
        · rcases List.mem_singleton.mp hs with rfl; decide
      · rw [if_neg hd] at hs; simp at hs
  · by_cases hx : (!(Build.extractExifFields e).isEmpty) = true
    · rw [if_pos hx] at hs
      rcases List.mem_append.mp hs with hs | hs
      · rcases List.mem_append.mp hs with hs | hs
        · rcases List.mem_cons.mp hs with rfl | hs
          · decide
          · rcases List.mem_cons.mp hs with rfl | hs
            · decide
            · rcases List.mem_cons.mp hs with rfl | hs
              · exact noBT_append (noBT_append (noBT_append (noBT_append (by decide) himgUrl)
                  (by decide)) halt) (by decide)
              · rcases List.mem_singleton.mp hs with rfl; decide
        · rcases List.mem_map.mp hs with ⟨f, hf, rfl⟩
          have hfb := extractExifFields_noBT e hexif f hf
          exact noBT_append (noBT_append (noBT_append (noBT_append (by decide)
            (escapeHtml_noBT hfb.1)) (by decide)) (escapeHtml_noBT hfb.2)) (by decide)
      · rcases List.mem_cons.mp hs with rfl | hs
        · decide
        · rcases List.mem_cons.mp hs with rfl | hs
          · decide
          · rcases List.mem_singleton.mp hs with rfl; decide
    · rw [if_neg hx] at hs
      rcases List.mem_singleton.mp hs with rfl
      exact noBT_append (noBT_append (noBT_append (noBT_append (by decide) himgUrl)
        (by decide)) halt) (by decide)

theorem buildCommentBody_split (e : Build.ImageData) (ctx : Build.Context) :
    Build.buildCommentBody e ctx =
      (joinLines (Build.buildCommentBodyMain e ctx ++ [""]) ++ "\n") ++
        ("`masonry-image:" ++ e.image ++ "`") := by
  unfold Build.buildCommentBody Build.buildCommentBodyLines
  have h1 : Build.buildCommentBodyMain e ctx ++ ["", "`masonry-image:" ++ e.image ++ "`"]
      = (Build.buildCommentBodyMain e ctx ++ [""]) ++ ["`masonry-image:" ++ e.image ++ "`"] := by
    rw [List.append_assoc]; rfl
  rw [h1, joinLines_append_last _ (List.append_ne_nil_of_right_ne_nil _ (by simp))]

/-- The general marker round-trip: under the stated side conditions on the
manifest entry and context, the build-side parser recovers exactly the
image id embedded by the body builder. -/
theorem parse_build_roundtrip (e : Build.ImageData) (ctx : Build.Context)
    (hne : e.image ≠ "")
    (hchars : ∀ c ∈ e.image.data, c ≠ backtickChar ∧ isNL c = false)
    (htrim : trimChars e.image.data = e.image.data)
    (htitle : NoBT e.title) (hdesc : NoBT e.description)
    (hexif : ∀ p ∈ e.exif, NoBT p.2)
    (hsite : NoBT ctx.siteUrl) (hpt : NoBT ctx.pageTitle) :
    Build.parseImageId (Build.buildCommentBody e ctx) = some e.image := by
  have hidBT : NoBT e.image := fun c hc => (hchars c hc).1
  have hdatane : e.image.data ≠ [] := by
    intro hcon
    apply hne
    apply String.ext_iff.mpr
    rw [hcon]
  set A : String := joinLines (Build.buildCommentBodyMain e ctx ++ [""]) ++ "\n" with hA
  have hAnoBT : NoBT A := by
    rw [hA]
    refine noBT_append (noBT_joinLines ?_) (by decide)
    intro s hs
    rcases List.mem_append.mp hs with hs | hs
    · exact buildCommentBodyMain_noBT e ctx hidBT htitle hdesc hexif hsite hpt s hs
    · rcases List.mem_singleton.mp hs with rfl; decide
  have hsplit := buildCommentBody_split e ctx
  rw [← hA] at hsplit
  have hdata : (Build.buildCommentBody e ctx).data
      = A.data ++ (Build.markerPat.data ++ (e.image.data ++ backtickChar :: [])) := by
    rw [hsplit, String.data_append]
    congr 1
  have hbody_ne : Build.buildCommentBody e ctx ≠ "" := by
    intro hcon
    have h0 : (Build.buildCommentBody e ctx).data = [] := by rw [hcon]
    rw [hdata] at h0
    exact List.append_ne_nil_of_right_ne_nil _ (by simp) h0
  unfold Build.parseImageId
  rw [if_neg (by simp [hbody_ne])]
  have hscan : scanFirst Build.tryMarkerAt (Build.buildCommentBody e ctx).data
      = some e.image.data := by
    rw [hdata, scanFirst_skip _ hAnoBT]
    exact scanFirst_marker_hit e.image.data [] hdatane hchars
  rw [hscan]
  show some (trimChars e.image.data).asString = some e.image
  rw [htrim]
  rfl

theorem classifyStep_ids (images : List Build.ImageData) (acc : Build.Classify)
    (c : Build.Comment) :
    (Build.classifyStep images acc c).ids
      = acc.ids ++ (Build.parseImageId c.body).toList := by
  unfold Build.classifyStep
  cases Build.parseImageId c.body with
  | none => simp
  | some i =>
    simp only [Option.toList]
    split
    · rfl
    · cases Build.imageDataMap images i <;> rfl

theorem foldl_classify_ids (images : List Build.ImageData) (cs : List Build.Comment) :
    ∀ acc : Build.Classify,
      (List.foldl (Build.classifyStep images) acc cs).ids
        = acc.ids ++ cs.filterMap (fun c => Build.parseImageId c.body) := by
  induction cs with
  | nil => simp
  | cons c cs ih =>
    intro acc
    rw [List.foldl_cons, ih, classifyStep_ids]
    cases hp : Build.parseImageId c.body <;>
      simp [Option.toList, List.filterMap_cons, hp]

theorem classify_ids (images : List Build.ImageData) (cs : List Build.Comment) :
    (Build.classify images cs).ids = cs.filterMap (fun c => Build.parseImageId c.body) := by
  unfold Build.classify
  rw [foldl_classify_ids]
  rfl

theorem classifyStep_updates_current (images : List Build.ImageData) (acc : Build.Classify)
    (c : Build.Comment) (h : Build.isCurrentFormat c.body = true) :
    (Build.classifyStep images acc c).updates = acc.updates := by
  unfold Build.classifyStep
  cases Build.parseImageId c.body with
  | none => rfl
  | some i => simp [h]

theorem classify_updates_current (images : List Build.ImageData) (cs : List Build.Comment)
    (h : ∀ c ∈ cs, Build.isCurrentFormat c.body = true) :
    (Build.classify images cs).updates = [] := by
  unfold Build.classify
  have key : ∀ (cs2 : List Build.Comment) (acc : Build.Classify),
      (∀ c ∈ cs2, Build.isCurrentFormat c.body = true) →
      (List.foldl (Build.classifyStep images) acc cs2).updates = acc.updates := by
    intro cs2
    induction cs2 with
    | nil => intro acc _; rfl
    | cons c cs2 ih =>
      intro acc hall
      rw [List.foldl_cons, ih _ (fun x hx => hall x (List.mem_cons_of_mem _ hx)),
        classifyStep_updates_current images acc c (hall c (by simp))]
  exact key cs ⟨[], []⟩ h

theorem processPage_no_delete (pagePath : String) (images : List Build.ImageData)
    (discussion? : Option Build.Discussion) (extra : List Build.CommentPage)
    (ctx : Build.Context) (createdId : String) (createdNumber : Nat) :
    ∀ m ∈ Build.processPageReactions pagePath images discussion? extra ctx createdId createdNumber,
      ∀ cid, m ≠ Build.Mutation.deleteComment cid := by
  intro m hm cid
  unfold Build.processPageReactions at hm
  rcases List.mem_append.mp hm with hm | hm
  · rcases List.mem_append.mp hm with hm | hm
    · unfold Build.createMutations at hm
      cases discussion? with
      | some d => simp at hm
      | none =>
        rcases List.mem_singleton.mp hm with rfl
        simp
    · unfold Build.bodyMutations at hm
      split at hm
      · simp at hm
      · split at hm
        · simp at hm
        · rcases List.mem_singleton.mp hm with rfl; simp
  · simp only [Build.workMutations] at hm
    split at hm
    · split at hm
      · simp at hm
      · rcases List.mem_singleton.mp hm with rfl; simp
    · rcases List.mem_append.mp hm with hm | hm
      · rcases List.mem_append.mp hm with hm | hm
        · rcases List.mem_append.mp hm with hm | hm
          · split at hm
            · rcases List.mem_singleton.mp hm with rfl; simp
            · simp at hm
          · rcases List.mem_map.mp hm with ⟨u, _, rfl⟩; simp
        · rcases List.mem_map.mp hm with ⟨img, _, rfl⟩; simp
      · rcases List.mem_singleton.mp hm with rfl; simp

theorem surviving_of_no_delete (cs : List Build.Comment) (ms : List Build.Mutation)
    (h : ∀ m ∈ ms, ∀ cid, m ≠ Build.Mutation.deleteComment cid) :
    Build.survivingComments cs ms = cs := by
  unfold Build.survivingComments
  apply List.filter_eq_self.mpr
  intro c _
  rw [Bool.not_eq_true']
  unfold Build.isDeletedBy
  apply List.any_eq_false.mpr
  intro m hm
  cases m with
  | deleteComment cid =>
    have hne := h _ hm c.id
    simp only [ne_eq, Build.Mutation.deleteComment.injEq] at hne
    simp [hne]
  | createDiscussion a b => simp
  | updateDiscussionBody a b => simp
  | updateComment a b => simp
  | addComment a b => simp
  | lockDiscussion a => simp
  | unlockDiscussion a => simp

theorem foldl_clientEntry (cs : List Client.ClientComment) :
    ∀ acc : List (String × Client.Reaction),
      List.foldl
        (fun acc c =>
          match Client.parseImageId c.bodyHTML with
          | none => acc
          | some imageId =>
            (imageId, ⟨c.id, c.reactionsHeartCount.getD 0, c.reactionsHeartViewer.getD false⟩) :: acc)
        acc cs
        = (cs.filterMap Client.clientEntry).reverse ++ acc := by
  induction cs with
  | nil => simp
  | cons c cs ih =>
    intro acc
    rw [List.foldl_cons]
    cases hp : Client.parseImageId c.bodyHTML with
    | none =>
      simp only [hp]
      rw [ih acc]
      simp [Client.clientEntry, hp, List.filterMap_cons]
    | some i =>
      simp only [hp]
      rw [ih]
      simp [Client.clientEntry, hp, List.filterMap_cons, List.reverse_cons, List.append_assoc]

theorem applyReactions_eq (cs : List Client.ClientComment) :
    Client.applyReactions cs = (cs.filterMap Client.clientEntry).reverse := by
  unfold Client.applyReactions
  rw [foldl_clientEntry]
  simp

theorem mkCommentPages_ne_nil (a : List Build.Comment) (l : List (List Build.Comment)) :
    Build.mkCommentPages (a :: l) ≠ [] := by
  cases l <;> simp [Build.mkCommentPages]

theorem collect_mkCommentPages (chunks : List (List Build.Comment)) :
    (match Build.mkCommentPages chunks with
     | [] => ([] : List Build.Comment)
     | p :: ps => Build.collectComments p ps) = chunks.flatten := by
  induction chunks with
  | nil => simp [Build.mkCommentPages]
  | cons c rest ih =>
    cases rest with
    | nil => simp [Build.mkCommentPages, Build.collectComments]
    | cons c2 rest2 =>
      show Build.collectComments ⟨c, true, some 0⟩ (Build.mkCommentPages (c2 :: rest2))
        = (c :: c2 :: rest2).flatten
      cases hmk : Build.mkCommentPages (c2 :: rest2) with
      | nil => exact absurd hmk (mkCommentPages_ne_nil _ _)
      | cons p ps =>
        have ih2 : Build.collectComments p ps = (c2 :: rest2).flatten := by
          rw [hmk] at ih
          exact ih
        show c ++ Build.collectComments p ps = (c :: c2 :: rest2).flatten
        rw [ih2]
        simp

theorem mkClientPages_ne_nil (a : List Client.ClientComment) (l : List (List Client.ClientComment)) :
    Client.mkClientPages (a :: l) ≠ [] := by
  cases l <;> simp [Client.mkClientPages]

theorem collect_mkClientPages (chunks : List (List Client.ClientComment)) :
    (match Client.mkClientPages chunks with
     | [] => ([] : List Client.ClientComment)
     | p :: ps => Client.collectClientComments p ps) = chunks.flatten := by
  induction chunks with
  | nil => simp [Client.mkClientPages]
  | cons c rest ih =>
    cases rest with
    | nil => simp [Client.mkClientPages, Client.collectClientComments]
    | cons c2 rest2 =>
      show Client.collectClientComments ⟨c, true, some 0⟩ (Client.mkClientPages (c2 :: rest2))
        = (c :: c2 :: rest2).flatten
      cases hmk : Client.mkClientPages (c2 :: rest2) with
      | nil => exact absurd hmk (mkClientPages_ne_nil _ _)
      | cons p ps =>
        have ih2 : Client.collectClientComments p ps = (c2 :: rest2).flatten := by
          rw [hmk] at ih
          exact ih
        show c ++ Client.collectClientComments p ps = (c :: c2 :: rest2).flatten
        rw [ih2]
        simp

theorem chunksOf_flatten {α : Type} (n : Nat) (l : List α) :
    (chunksOf (n + 1) l).flatten = l := by
  cases l with
  | nil => simp [chunksOf]
  | cons x xs =>
    have hstep : chunksOf (n + 1) (x :: xs)
        = ((x :: xs).take (n + 1)) :: chunksOf (n + 1) ((x :: xs).drop (n + 1)) := by
      rw [chunksOf]
    rw [hstep, List.flatten_cons, chunksOf_flatten n ((x :: xs).drop (n + 1))]
    exact List.take_append_drop _ _
  termination_by l.length
  decreasing_by
    simp only [List.length_drop, List.length_cons]
    omega

theorem collectComments_paginate (cs : List Build.Comment) :
    Build.collectComments (Build.paginateComments cs).1 (Build.paginateComments cs).2 = cs := by
  unfold Build.paginateComments
  have h := collect_mkCommentPages (chunksOf 100 cs)
  have hfl : (chunksOf 100 cs).flatten = cs := chunksOf_flatten 99 cs
  cases hmk : Build.mkCommentPages (chunksOf 100 cs) with
  | nil =>
    rw [hmk] at h
    simp only [hfl] at h
    rw [← h]
    rfl
  | cons p ps =>
    rw [hmk] at h
    simp only [hfl] at h
    exact h

theorem collectClient_paginate (cs : List Client.ClientComment) :
    Client.collectClientComments (Client.paginateClientComments cs).1
      (Client.paginateClientComments cs).2 = cs := by
  unfold Client.paginateClientComments
  have h := collect_mkClientPages (chunksOf 100 cs)
  have hfl : (chunksOf 100 cs).flatten = cs := chunksOf_flatten 99 cs
  cases hmk : Client.mkClientPages (chunksOf 100 cs) with
  | nil =>
    rw [hmk] at h
    simp only [hfl] at h
    rw [← h]
    rfl
  | cons p ps =>
    rw [hmk] at h
    simp only [hfl] at h
    exact h

theorem execGo_calls_le (label : String) (resps : List Build.AttemptResp) :
    ∀ (attempt : Nat) (st : Build.MutState), attempt ≤ 2 →
      (Build.execGo label attempt st resps).calls ≤ 3 - attempt := by
  induction resps with
  | nil =>
    intro attempt st _
    rw [Build.execGo]
    split
    · simp
    · split
      · simp
      · simp
  | cons r resps ih =>
    intro attempt st hle
    cases r with
    | netError msg =>
      rw [Build.execGo]
      split
      · simp
      · split
        · simp
        · split
          · rename_i hlt
            have h2 := ih (attempt + 1) st (by omega)
            simp only
            omega
          · simp only
            omega
    | reply errors retryAfter newRemaining =>
      rw [Build.execGo]
      split
      · simp
      · split
        · simp
        · split
          · simp only
            omega
          · split
            · split
              · rename_i hsec
                have hlt : attempt < 2 := by
                  rw [Bool.and_eq_true] at hsec
                  exact of_decide_eq_true hsec.2
                have h2 := ih (attempt + 1) (Build.applyHeader st newRemaining) (by omega)
                simp only
                omega
              · simp only
                omega
            · simp only
              omega

/-!
Claim theorems.
-/

/-- C7: for every authenticated heart-button click whose reaction-toggle
mutation fails, the displayed heart count and viewer-reacted state are
restored exactly to their pre-click values; when the mutation succeeds, the
client-side cache entry for the page's discussion term is invalidated. -/
theorem claim_C7 (pre : Client.Reaction) (tok href : String) :
    Client.handleHeartClick false true (some tok) true href (some pre) false
      = ⟨some pre, none, 1, false⟩
  ∧ (Client.handleHeartClick false true (some tok) true href (some pre) true).cacheCleared
      = true :=
  ⟨rfl, rfl⟩

/-- C9: the displayed heart count is never negative after an optimistic
toggle: for every reaction state with a non-negative heart count, the
authenticated click computes `max 0 (count - 1)` when removing and
`count + 1` when adding, and the post-click displayed count stays
non-negative, including the case of a reacted viewer at count 0. -/
theorem claim_C9 (pre : Client.Reaction) (tok href : String) (cfg succ : Bool)
    (h : 0 ≤ pre.heartCount) :
    (Client.handleHeartClick false true (some tok) cfg href (some pre) true).reaction
      = some ⟨pre.commentId,
          (if pre.viewerHasReacted then max 0 (pre.heartCount - 1) else pre.heartCount + 1),
          !pre.viewerHasReacted⟩
  ∧ ∀ post : Client.Reaction,
      (Client.handleHeartClick false true (some tok) cfg href (some pre) succ).reaction
          = some post →
        0 ≤ post.heartCount := by
  constructor
  · rfl
  · intro post hpost
    cases succ with
    | false =>
      have h2 : some (⟨pre.commentId, pre.heartCount, pre.viewerHasReacted⟩ : Client.Reaction)
          = some post := hpost
      rw [← Option.some.inj h2]
      exact h
    | true =>
      have h2 : some (⟨pre.commentId,
          (if pre.viewerHasReacted then max 0 (pre.heartCount - 1) else pre.heartCount + 1),
          !pre.viewerHasReacted⟩ : Client.Reaction) = some post := hpost
      rw [← Option.some.inj h2]
      show (0 : Int) ≤ (if pre.viewerHasReacted then max 0 (pre.heartCount - 1) else pre.heartCount + 1)
      by_cases hv : pre.viewerHasReacted = true
      · rw [if_pos hv]
        exact le_max_left 0 _
      · rw [if_neg hv]
        omega

/-- Witness for C9 at the inconsistent state: viewer recorded as reacted
while the count is zero; the optimistic count stays zero. -/
theorem claim_C9_witness :
    (0 : Int) ≤ 0
  ∧ (Client.handleHeartClick false true (some "t") true "h"
        (some ⟨"c", 0, true⟩) true).reaction = some ⟨"c", 0, false⟩ :=
  ⟨by decide, by simpa using (claim_C9 ⟨"c", 0, true⟩ "t" "h" true true (by decide)).1⟩

/-- C10: if the fetched comment list contains two or more comments whose
rendered body embeds the same image id, `applyReactions` maps that id to the
comment id and heart count of the last such comment in list order, and
comments with no parseable image id are skipped without affecting the
mapping. -/
theorem claim_C10 (l1 l2 : List Client.ClientComment) (c : Client.ClientComment)
    (imageId : String)
    (hc : Client.parseImageId c.bodyHTML = some imageId)
    (hlast : ∀ c2 ∈ l2, Client.parseImageId c2.bodyHTML ≠ some imageId) :
    Client.lookupReaction (Client.applyReactions (l1 ++ c :: l2)) imageId
      = some ⟨c.id, c.reactionsHeartCount.getD 0, c.reactionsHeartViewer.getD false⟩
  ∧ ∀ (m1 m2 : List Client.ClientComment) (c0 : Client.ClientComment),
      Client.parseImageId c0.bodyHTML = none →
        Client.applyReactions (m1 ++ c0 :: m2) = Client.applyReactions (m1 ++ m2) := by
  constructor
  · unfold Client.lookupReaction
    rw [applyReactions_eq, List.filterMap_append, List.filterMap_cons]
    have hgc : Client.clientEntry c
        = some (imageId,
            ⟨c.id, c.reactionsHeartCount.getD 0, c.reactionsHeartViewer.getD false⟩) := by
      unfold Client.clientEntry
      rw [hc]
      rfl
    rw [hgc]
    rw [List.reverse_append, List.reverse_cons]
    have hnone : List.find? (fun p => p.1 == imageId)
        ((List.filterMap Client.clientEntry l2).reverse) = none := by
      apply List.find?_eq_none.mpr
      intro p hp
      rw [List.mem_reverse] at hp
      rcases List.mem_filterMap.mp hp with ⟨c2, hc2, hentry⟩
      unfold Client.clientEntry at hentry
      cases hparse : Client.parseImageId c2.bodyHTML with
      | none => rw [hparse] at hentry; exact absurd hentry (by simp)
      | some i =>
        rw [hparse] at hentry
        have hpi : p.1 = i := by
          have h3 := Option.some.inj hentry
          rw [← h3]
        have hii : i ≠ imageId := by
          intro hcon
          exact hlast c2 hc2 (by rw [hparse, hcon])
        simp [hpi, hii]
    rw [List.find?_append, List.find?_append, hnone]
    simp
  · intro m1 m2 c0 h0
    rw [applyReactions_eq, applyReactions_eq, List.filterMap_append, List.filterMap_append,
      List.filterMap_cons]
    have hg0 : Client.clientEntry c0 = none := by
      unfold Client.clientEntry
      rw [h0]
      rfl
    rw [hg0]

/-- Witness for C10: two comments embed the same image id; the mapping holds
the latter's comment id and count. -/
theorem claim_C10_witness :
    Client.parseImageId dupClient2.bodyHTML = some "a.jpg"
  ∧ Client.lookupReaction (Client.applyReactions [dupClient1, dupClient2]) "a.jpg"
      = some ⟨"K2", 5, false⟩ :=
  ⟨by decide, (claim_C10 [dupClient1] [] dupClient2 "a.jpg" (by decide) (by decide)).1⟩

/-- C8: with no stored session, heart buttons carry the live heart counts of
their comments with `viewerHasReacted` false for every image, and a click
navigates to the OAuth authorize endpoint carrying the current page URL,
issuing no reaction mutation. -/
theorem claim_C8 (cs : List Client.ClientComment)
    (hanon : ∀ c ∈ cs, c.reactionsHeartViewer.getD false = false) :
    (∀ p ∈ Client.applyReactions cs,
      p.2.viewerHasReacted = false
      ∧ ∃ c ∈ cs, Client.parseImageId c.bodyHTML = some p.1
          ∧ p.2.commentId = c.id ∧ p.2.heartCount = c.reactionsHeartCount.getD 0)
  ∧ (∀ (href : String) (r? : Option Client.Reaction) (succ : Bool),
      Client.handleHeartClick false false none true href r? succ
        = ⟨r?, some (Client.getGiscusLoginUrl href), 0, false⟩) := by
  constructor
  · intro p hp
    rw [applyReactions_eq, List.mem_reverse] at hp
    rcases List.mem_filterMap.mp hp with ⟨c, hc, hentry⟩
    unfold Client.clientEntry at hentry
    cases hparse : Client.parseImageId c.bodyHTML with
    | none => rw [hparse] at hentry; exact absurd hentry (by simp)
    | some i =>
      rw [hparse] at hentry
      have hp2 : (i, (⟨c.id, c.reactionsHeartCount.getD 0,
          c.reactionsHeartViewer.getD false⟩ : Client.Reaction)) = p :=
        Option.some.inj hentry
      rw [← hp2]
      exact ⟨hanon c hc, c, hc, hparse, rfl, rfl⟩
  · intro href r? succ
    rfl

/-- Witness for C8 on a one-comment anonymous fetch. -/
theorem claim_C8_witness :
    (∀ c ∈ [anonComment], c.reactionsHeartViewer.getD false = false)
  ∧ ∀ p ∈ Client.applyReactions [anonComment],
      p.2.viewerHasReacted = false
      ∧ ∃ c ∈ [anonComment], Client.parseImageId c.bodyHTML = some p.1
          ∧ p.2.commentId = c.id ∧ p.2.heartCount = c.reactionsHeartCount.getD 0 :=
  ⟨by decide, (claim_C8 [anonComment] (by decide)).1⟩

set_option maxRecDepth 4000 in
/-- Counterexample for C4: for the manifest entry whose image id contains a
backtick, parsing the built body does not return the entry's image id (the
lazy capture stops at the embedded backtick). -/
theorem claim_C4_counterexample :
    Build.parseImageId (Build.buildCommentBody backtickEntry ctx0)
      ≠ some backtickEntry.image := by
  decide

set_option maxRecDepth 8000 in
/-- C4 (amended): the sunset entry reconciled from empty state yields exactly
one added comment, whose body contains the literal marker substring and the
title heading, and parsing that body recovers the image id; and the marker
round-trip `parseImageId (buildCommentBody e ctx) = some e.image` holds for
every entry whose image id is nonempty, trim-stable, and free of backticks
and line terminators, provided the entry's title, description and EXIF
values, the site URL and the page title contain no backtick (the
counterexample shows the unrestricted round-trip fails). -/
theorem claim_C4 (e : Build.ImageData) (ctx : Build.Context)
    (hne : e.image ≠ "")
    (hchars : ∀ c ∈ e.image.data, c ≠ backtickChar ∧ isNL c = false)
    (htrim : trimChars e.image.data = e.image.data)
    (htitle : NoBT e.title) (hdesc : NoBT e.description)
    (hexif : ∀ p ∈ e.exif, NoBT p.2)
    (hsite : NoBT ctx.siteUrl) (hpt : NoBT ctx.pageTitle) :
    ((Build.processPageReactions "masonry/p/" [sunsetEntry] none [] ctx0 "N" 7).filterMap
        (fun m => match m with
          | Build.Mutation.addComment _ b => some b
          | _ => none))
      = [Build.buildCommentBody sunsetEntry ctx0]
  ∧ strContains (Build.buildCommentBody sunsetEntry ctx0) "`masonry-image:sunset.jpg`" = true
  ∧ strContains (Build.buildCommentBody sunsetEntry ctx0) "### Sunset" = true
  ∧ Build.parseImageId (Build.buildCommentBody sunsetEntry ctx0) = some "sunset.jpg"
  ∧ Build.parseImageId (Build.buildCommentBody e ctx) = some e.image :=
  ⟨by decide, by decide, by decide, by decide,
   parse_build_roundtrip e ctx hne hchars htrim htitle hdesc hexif hsite hpt⟩

set_option maxRecDepth 4000 in
/-- Witness for C4 at the spec's sunset entry. -/
theorem claim_C4_witness :
    sunsetEntry.image ≠ ""
  ∧ Build.parseImageId (Build.buildCommentBody sunsetEntry ctx0) = some sunsetEntry.image :=
  ⟨by decide,
   (claim_C4 sunsetEntry ctx0 (by decide) (by decide) (by decide) (by decide) (by decide)
     (by decide) (by decide) (by decide)).2.2.2.2⟩

/-- C6: on a run of secondary-rate-limit replies the executor backs off for
the retry-after header value when present, else `(attempt + 1) * 5` seconds,
retries, issues at most three attempts in total, and exhausting them yields
an error message carrying the operation label. -/
theorem claim_C6 (label : String) (errs1 errs2 errs3 : List String)
    (ra1 ra2 ra3 : Option Nat)
    (h1 : Build.isSecondaryRateLimit errs1 = true)
    (h2 : Build.isSecondaryRateLimit errs2 = true)
    (h3 : Build.isSecondaryRateLimit errs3 = true) :
    Build.executeMutation label ⟨none, false⟩
        [Build.AttemptResp.reply errs1 ra1 none,
         Build.AttemptResp.reply errs2 ra2 none,
         Build.AttemptResp.reply errs3 ra3 none]
      = ⟨Except.error (label ++ " failed: " ++ Build.renderErrors errs3), ⟨none, false⟩, 3,
         [ra1.getD 5, ra2.getD 10]⟩
  ∧ ∀ (label2 : String) (st : Build.MutState) (resps : List Build.AttemptResp),
      (Build.executeMutation label2 st resps).calls ≤ 3 := by
  have hne3 : (!errs3.isEmpty) = true := by
    cases errs3 with
    | nil => exact absurd h3 (by decide)
    | cons a l => rfl
  have hne2 : (!errs2.isEmpty) = true := by
    cases errs2 with
    | nil => exact absurd h2 (by decide)
    | cons a l => rfl
  have hne1 : (!errs1.isEmpty) = true := by
    cases errs1 with
    | nil => exact absurd h1 (by decide)
    | cons a l => rfl
  constructor
  · have e3 : Build.execGo label 2 ⟨none, false⟩ [Build.AttemptResp.reply errs3 ra3 none]
        = ⟨Except.error (label ++ " failed: " ++ Build.renderErrors errs3), ⟨none, false⟩, 1, []⟩ := by
      rw [Build.execGo, if_neg (by decide), if_neg (by decide), if_neg (by decide),
        if_pos hne3, if_neg (by simp)]
      rfl
    have e2 : Build.execGo label 1 ⟨none, false⟩
        [Build.AttemptResp.reply errs2 ra2 none, Build.AttemptResp.reply errs3 ra3 none]
        = ⟨Except.error (label ++ " failed: " ++ Build.renderErrors errs3), ⟨none, false⟩, 2,
           [ra2.getD 10]⟩ := by
      rw [Build.execGo, if_neg (by decide), if_neg (by decide), if_neg (by decide),
        if_pos hne2, if_pos (by rw [Bool.and_eq_true]; exact ⟨h2, by decide⟩)]
      rw [show Build.applyHeader ⟨none, false⟩ none = (⟨none, false⟩ : Build.MutState) from rfl]
      rw [show (1 : Nat) + 1 = 2 from rfl, e3]
    show Build.execGo label 0 ⟨none, false⟩ _ = _
    rw [Build.execGo, if_neg (by decide), if_neg (by decide), if_neg (by decide),
      if_pos hne1, if_pos (by rw [Bool.and_eq_true]; exact ⟨h1, by decide⟩)]
    rw [show Build.applyHeader ⟨none, false⟩ none = (⟨none, false⟩ : Build.MutState) from rfl]
    rw [show (0 : Nat) + 1 = 1 from rfl, e2]
  · intro label2 st resps
    have h := execGo_calls_le label2 resps 0 st (by omega)
    simpa using h

/-- Witness for C6 with a concrete secondary-rate-limit message, a 7-second
retry-after header on the first reply and none on the second. -/
theorem claim_C6_witness :
    Build.isSecondaryRateLimit ["secondary rate limit"] = true
  ∧ Build.executeMutation "add comment: a.jpg" ⟨none, false⟩
        [Build.AttemptResp.reply ["secondary rate limit"] (some 7) none,
         Build.AttemptResp.reply ["secondary rate limit"] none none,
         Build.AttemptResp.reply ["secondary rate limit"] none none]
      = ⟨Except.error ("add comment: a.jpg failed: secondary rate limit"), ⟨none, false⟩, 3,
         [7, 10]⟩ :=
  ⟨by decide,
   by simpa using (claim_C6 "add comment: a.jpg" ["secondary rate limit"]
     ["secondary rate limit"] ["secondary rate limit"] (some 7) none none
     (by decide) (by decide) (by decide)).1⟩

/-- C5: for a discussion with more comments than the 100-per-request page
size, both the reconciler's accumulation loop and the Reaction Client's
`fetchAllComments` recover the full comment list by following the
`hasNextPage`/`endCursor` continuation pages, and the reconciler's
classification over the paginated connection issues exactly the mutations
it would issue with all comments on a single page. -/
theorem claim_C5 :
    (∀ cs : List Build.Comment,
      Build.collectComments (Build.paginateComments cs).1 (Build.paginateComments cs).2 = cs)
  ∧ (∀ cs : List Client.ClientComment,
      Client.fetchAllComments (some (Client.paginateClientComments cs)) = some cs)
  ∧ (∀ (pagePath : String) (images : List Build.ImageData) (d : Build.Discussion)
      (cs : List Build.Comment) (ctx : Build.Context) (createdId : String) (createdNumber : Nat),
      Build.processPageReactions pagePath images
          (some ⟨d.id, d.number, d.title, d.body, d.locked, (Build.paginateComments cs).1⟩)
          (Build.paginateComments cs).2 ctx createdId createdNumber
        = Build.processPageReactions pagePath images
            (some ⟨d.id, d.number, d.title, d.body, d.locked, ⟨cs, false, none⟩⟩)
            [] ctx createdId createdNumber) := by
  refine ⟨collectComments_paginate, ?_, ?_⟩
  · intro cs
    show some (Client.collectClientComments (Client.paginateClientComments cs).1
      (Client.paginateClientComments cs).2) = some cs
    rw [collectClient_paginate]
  · intro pagePath images d cs ctx createdId createdNumber
    simp only [Build.processPageReactions, Build.effDiscussion]
    rw [collectComments_paginate]
    rfl

/-- C2: a reconciliation pass over a page whose remote state is already
fully synced (discussion found, current-format body, a current-format
comment for every manifest image id, discussion locked) issues zero
create/update/delete/lock/unlock mutations. -/
theorem claim_C2 (pagePath : String) (images : List Build.ImageData)
    (d : Build.Discussion) (extra : List Build.CommentPage) (ctx : Build.Context)
    (createdId : String) (createdNumber : Nat)
    (hbody : ∃ b, d.body = some b ∧ strContains b "hexo-theme-redefine-x" = true)
    (hlocked : d.locked = true)
    (hcur : ∀ c ∈ Build.collectComments d.comments extra, Build.isCurrentFormat c.body = true)
    (hsynced : ∀ img ∈ images, ∃ c ∈ Build.collectComments d.comments extra,
        Build.parseImageId c.body = some img.image) :
    Build.processPageReactions pagePath images (some d) extra ctx createdId createdNumber
      = [] := by
  unfold Build.processPageReactions
  have heff : Build.effDiscussion pagePath (some d) createdId createdNumber = d := rfl
  rw [heff]
  have h1 : Build.createMutations pagePath (some d) ctx = [] := rfl
  have h2 : Build.bodyMutations d ctx = [] := by
    rcases hbody with ⟨b, hb, hcont⟩
    unfold Build.bodyMutations
    rw [hb]
    have hbne : (b != "") = true := by
      rw [bne_iff_ne]
      intro hbe
      rw [hbe] at hcont
      exact absurd hcont (by decide)
    simp [hbne, hcont]
  have h3 : Build.workMutations d images (Build.collectComments d.comments extra) ctx = [] := by
    simp only [Build.workMutations]
    have hupd : (Build.classify images (Build.collectComments d.comments extra)).updates = [] :=
      classify_updates_current _ _ hcur
    have hnew : images.filter
        (fun img =>
          !((Build.classify images (Build.collectComments d.comments extra)).ids.contains
            img.image)) = [] := by
      apply List.filter_eq_nil_iff.mpr
      intro img hmem
      have hin : img.image
          ∈ (Build.classify images (Build.collectComments d.comments extra)).ids := by
        rw [classify_ids]
        rcases hsynced img hmem with ⟨c, hc, hp⟩
        exact List.mem_filterMap.mpr ⟨c, hc, hp⟩
      have hcont2 : (Build.classify images
          (Build.collectComments d.comments extra)).ids.contains img.image = true :=
        List.elem_iff.mpr hin
      rw [hcont2]
      decide
    rw [hnew, hupd]
    simp [hlocked]
  rw [h1, h2, h3]
  rfl

/-- Witness for C2 on a concrete synced page. -/
theorem claim_C2_witness :
    (∃ b, syncedDiscussion.body = some b ∧ strContains b "hexo-theme-redefine-x" = true)
  ∧ Build.processPageReactions "masonry/p/" [sunsetEntry] (some syncedDiscussion) [] ctx0
      "N" 7 = [] :=
  ⟨⟨"x hexo-theme-redefine-x y", rfl, by decide⟩,
   claim_C2 "masonry/p/" [sunsetEntry] syncedDiscussion [] ctx0 "N" 7
     ⟨"x hexo-theme-redefine-x y", rfl, by decide⟩ rfl (by decide) (by decide)⟩

/-- C3: once the cached remaining-calls counter is at or below zero, the
executor sets the global abort flag and fails without issuing the HTTP call;
every later invocation fails fast with zero calls while the flag is set; and
the page loop skips all remaining pages, preserving the success count of
the final summary and issuing no further call. -/
theorem claim_C3 (label : String) (st : Build.MutState) (resps : List Build.AttemptResp)
    (habort : st.abortAll = false) (hzero : Build.rateLimited st = true) :
    (Build.executeMutation label st resps).calls = 0
  ∧ (Build.executeMutation label st resps).outcome
      = Except.error "Aborted: X-RateLimit-Remaining is 0"
  ∧ (Build.executeMutation label st resps).state = ⟨st.rateLimitRemaining, true⟩
  ∧ (∀ (label2 : String) (st2 : Build.MutState) (resps2 : List Build.AttemptResp),
      st2.abortAll = true →
        (Build.executeMutation label2 st2 resps2).calls = 0
        ∧ (Build.executeMutation label2 st2 resps2).outcome
            = Except.error "Aborted: primary rate limit reached"
        ∧ (Build.executeMutation label2 st2 resps2).state = st2)
  ∧ (∀ (pages : List (List (String × List Build.AttemptResp))) (count calls : Nat)
      (st3 : Build.MutState),
      st3.abortAll = true → Build.runBuild st3 count calls pages = (st3, count, calls)) := by
  have hkey : Build.executeMutation label st resps
      = ⟨Except.error "Aborted: X-RateLimit-Remaining is 0", ⟨st.rateLimitRemaining, true⟩,
         0, []⟩ := by
    show Build.execGo label 0 st resps = _
    cases resps with
    | nil => rw [Build.execGo, if_neg (by simp [habort]), if_pos hzero]
    | cons r rest =>
      cases r with
      | netError msg => rw [Build.execGo, if_neg (by simp [habort]), if_pos hzero]
      | reply e ra nr => rw [Build.execGo, if_neg (by simp [habort]), if_pos hzero]
  have habortkey : ∀ (label2 : String) (st2 : Build.MutState)
      (resps2 : List Build.AttemptResp), st2.abortAll = true →
      Build.executeMutation label2 st2 resps2
        = ⟨Except.error "Aborted: primary rate limit reached", st2, 0, []⟩ := by
    intro label2 st2 resps2 h2
    show Build.execGo label2 0 st2 resps2 = _
    cases resps2 with
    | nil => rw [Build.execGo, if_pos h2]
    | cons r rest =>
      cases r with
      | netError msg => rw [Build.execGo, if_pos h2]
      | reply e ra nr => rw [Build.execGo, if_pos h2]
  refine ⟨by rw [hkey], by rw [hkey], by rw [hkey], ?_, ?_⟩
  · intro label2 st2 resps2 h2
    rw [habortkey label2 st2 resps2 h2]
    exact ⟨rfl, rfl, rfl⟩
  · intro pages count calls st3 h3
    cases pages with
    | nil => rfl
    | cons p rest =>
      rw [Build.runBuild, if_pos h3]

/-- Witness for C3 at a zeroed counter. -/
theorem claim_C3_witness :
    (⟨some 0, false⟩ : Build.MutState).abortAll = false
  ∧ Build.rateLimited ⟨some 0, false⟩ = true
  ∧ (Build.executeMutation "lock discussion" ⟨some 0, false⟩ []).calls = 0 :=
  ⟨rfl, by decide,
   (claim_C3 "lock discussion" ⟨some 0, false⟩ [] rfl (by decide)).1⟩

/-- Counterexample for C1: a page with one manifest image and a fetched
state holding two comments for that image plus one orphan comment. The
pass leaves both duplicates and the orphan in place, so the claimed
postcondition (exactly one surviving comment for the surviving id, zero for
the removed id) fails. -/
theorem claim_C1_counterexample :
    ¬ (((Build.survivingComments
          (Build.collectComments dupDiscussion.comments [])
          (Build.processPageReactions "masonry/p/" [imgA] (some dupDiscussion) [] ctx0
            "N" 7)).filter
            (fun c => Build.parseImageId c.body == some "a.jpg")).length = 1
      ∧ ((Build.survivingComments
          (Build.collectComments dupDiscussion.comments [])
          (Build.processPageReactions "masonry/p/" [imgA] (some dupDiscussion) [] ctx0
            "N" 7)).filter
            (fun c => Build.parseImageId c.body == some "gone.jpg")).length = 0) := by
  decide

/-- C1 (amended): a reconciliation pass never deletes a fetched comment —
unparseable, orphan and duplicate comments all survive, since the script
issues no `deleteDiscussionComment` mutation — and every manifest image id
with no fetched comment embedding it receives an `addDiscussionComment`
mutation. -/
theorem claim_C1 (pagePath : String) (images : List Build.ImageData)
    (discussion? : Option Build.Discussion) (extra : List Build.CommentPage)
    (ctx : Build.Context) (createdId : String) (createdNumber : Nat) :
    Build.survivingComments
        (Build.collectComments
          (Build.effDiscussion pagePath discussion? createdId createdNumber).comments extra)
        (Build.processPageReactions pagePath images discussion? extra ctx createdId
          createdNumber)
      = Build.collectComments
          (Build.effDiscussion pagePath discussion? createdId createdNumber).comments extra
  ∧ ∀ img ∈ images,
      (∃ c ∈ Build.collectComments
          (Build.effDiscussion pagePath discussion? createdId createdNumber).comments extra,
        Build.parseImageId c.body = some img.image)
      ∨ Build.Mutation.addComment
          (Build.effDiscussion pagePath discussion? createdId createdNumber).id
          (Build.buildCommentBody img ctx)
          ∈ Build.processPageReactions pagePath images discussion? extra ctx createdId
              createdNumber := by
  constructor
  · exact surviving_of_no_delete _ _
      (processPage_no_delete pagePath images discussion? extra ctx createdId createdNumber)
  · intro img hmem
    by_cases hex : ∃ c ∈ Build.collectComments
        (Build.effDiscussion pagePath discussion? createdId createdNumber).comments extra,
        Build.parseImageId c.body = some img.image
    · exact Or.inl hex
    · right
      have hnotin : img.image ∉ (Build.classify images
          (Build.collectComments
            (Build.effDiscussion pagePath discussion? createdId createdNumber).comments
            extra)).ids := by
        rw [classify_ids]
        intro hc
        rcases List.mem_filterMap.mp hc with ⟨c, hcmem, hcp⟩
        exact hex ⟨c, hcmem, hcp⟩
      have hcontf : (Build.classify images
          (Build.collectComments
            (Build.effDiscussion pagePath discussion? createdId createdNumber).comments
            extra)).ids.contains img.image = false := by
        rw [← Bool.not_eq_true]
        intro hc
        exact hnotin (List.elem_iff.mp hc)
      have hni : img ∈ images.filter
          (fun i =>
            !((Build.classify images
              (Build.collectComments
                (Build.effDiscussion pagePath discussion? createdId createdNumber).comments
                extra)).ids.contains i.image)) := by
        rw [List.mem_filter]
        exact ⟨hmem, by rw [hcontf]; rfl⟩
      have hwork : Build.Mutation.addComment
          (Build.effDiscussion pagePath discussion? createdId createdNumber).id
          (Build.buildCommentBody img ctx)
          ∈ Build.workMutations (Build.effDiscussion pagePath discussion? createdId createdNumber)
              images
              (Build.collectComments
                (Build.effDiscussion pagePath discussion? createdId createdNumber).comments
                extra) ctx := by
        simp only [Build.workMutations]
        have hcond : ((images.filter
            (fun i =>
              !((Build.classify images
                (Build.collectComments
                  (Build.effDiscussion pagePath discussion? createdId createdNumber).comments
                  extra)).ids.contains i.image))).isEmpty
            && (Build.classify images
              (Build.collectComments
                (Build.effDiscussion pagePath discussion? createdId createdNumber).comments
                extra)).updates.isEmpty) = false := by
          have hne := List.ne_nil_of_mem hni
          cases hE : (images.filter
              (fun i =>
                !((Build.classify images
                  (Build.collectComments
                    (Build.effDiscussion pagePath discussion? createdId createdNumber).comments
                    extra)).ids.contains i.image))).isEmpty with
          | false => rfl
          | true => exact absurd (List.isEmpty_iff.mp hE) hne
        rw [if_neg (by rw [hcond]; decide)]
        apply List.mem_append.mpr
        apply Or.inl
        apply List.mem_append.mpr
        apply Or.inr
        exact List.mem_map.mpr ⟨img, hni, rfl⟩
      unfold Build.processPageReactions
      apply List.mem_append.mpr
      exact Or.inr hwork

end MasonryReactions
